import Mathlib

/-!
Verification of the PuzzleBreak (TriBond) free-text answer-checking core.

The repository's answer-validation logic lives in an Angular service
(`AnswerService.checkAnswer`, `isFuzzyMatch`, `levenshtein`, `isSynonymMatch`)
together with the helper `fetchSynonyms`.  Strings are modelled as `List Char`;
the JavaScript idiom `s.trim().toLowerCase()` is embedded as `normalize`;
the two external collaborators (the Supabase answer store and the Datamuse
synonym service) are modelled by passing their outcome (`Except`) into the
functions that consume them.
-/

namespace PuzzleBreak

/-- Strings of the embedded program: sequences of Unicode code points. -/
abbrev Str := List Char

/-- Whitespace as recognised by JavaScript `String.prototype.trim`:
the ASCII WhiteSpace and LineTerminator code points together with NBSP,
LINE SEPARATOR, PARAGRAPH SEPARATOR and the BOM.  (The remaining exotic
Unicode space code points are immaterial to every claim considered here.) -/
def isJsWhitespace (c : Char) : Bool :=
  c.toNat = 9 || c.toNat = 10 || c.toNat = 11 || c.toNat = 12 || c.toNat = 13 ||
  c.toNat = 32 || c.toNat = 160 || c.toNat = 8232 || c.toNat = 8233 || c.toNat = 65279

/-- Embeds `s.trim()`: remove leading and trailing whitespace. -/
def jsTrim (s : Str) : Str :=
  ((s.dropWhile isJsWhitespace).reverse.dropWhile isJsWhitespace).reverse

/-- Embeds the action of `String.prototype.toLowerCase` on one code point
(ASCII case fold; the inputs appearing in the repository are ASCII). -/
def jsToLowerChar (c : Char) : Char :=
  if 65 ≤ c.toNat ∧ c.toNat ≤ 90 then Char.ofNat (c.toNat + 32) else c

/-- Embeds `s.toLowerCase()`. -/
def jsToLower (s : Str) : Str :=
  s.map jsToLowerChar

/-- The normalization idiom used throughout the service:
`x.trim().toLowerCase()`. -/
def normalize (s : Str) : Str :=
  jsToLower (jsTrim s)

/-- Fuel-indexed form of the spec's §4.2 recurrence (the fuel only serves to
make the recursion structural; `levRec_eq_of_le` shows any sufficient fuel gives
the same value). -/
def levRec (fuel : Nat) (a b : Str) : Nat :=
  match a, b with
  | [], ys => ys.length
  | x :: xs, [] => (x :: xs).length
  | x :: xs, y :: ys =>
    match fuel with
    | 0 => 0
    | fuel + 1 =>
      if x = y then levRec fuel xs ys
      else 1 + min (levRec fuel xs (y :: ys))
        (min (levRec fuel (x :: xs) ys) (levRec fuel xs ys))

/-- Modelled from the spec: the repository declares
`levenshtein(a: string, b: string): number` but elides its body (the body is
the single comment "Implementation of the Levenshtein distance algorithm").
This definition follows the spec's §4.2 recurrence: `d[i][j] = d[i-1][j-1]`
if the characters are equal, else `1 + min (d[i-1][j], d[i][j-1], d[i-1][j-1])`,
with base cases `d[i][0] = i` and `d[0][j] = j`, insert/delete/substitute
each of cost 1 (see `levenshtein_nil_left`, `levenshtein_cons_nil`,
`levenshtein_cons_cons`). -/
def levenshtein (a b : Str) : Nat :=
  levRec (a.length + b.length) a b

/-- Embeds `AnswerService.isFuzzyMatch`:
`levenshtein(userInput.trim().toLowerCase(), correctAnswer.trim().toLowerCase()) <= 2`. -/
def isFuzzyMatch (userInput correctAnswer : Str) : Bool :=
  decide (levenshtein (normalize userInput) (normalize correctAnswer) ≤ 2)

/-- One element of the JSON array returned by the Datamuse request in
`fetchSynonyms`; only its `word` field is consumed. -/
structure DatamuseEntry where
  word : Str
deriving DecidableEq

/-- Embeds `fetchSynonyms`: the outcome of the network fetch and JSON parse is
passed in as `resp` (`Except.error` standing for a network error, timeout or
malformed response); on success the code returns `data.map((entry) => entry.word)`. -/
def fetchSynonyms (resp : Except Unit (List DatamuseEntry)) : Except Unit (List Str) :=
  resp.map (fun data => data.map (fun entry => entry.word))

/-- Embeds `AnswerService.isSynonymMatch`:
`const synonyms = await fetchSynonyms(correctAnswer);`
`return synonyms.includes(userInput.trim().toLowerCase());`.
A failure of `fetchSynonyms` propagates (there is no `try`/`catch`). -/
def isSynonymMatch (resp : Except Unit (List DatamuseEntry))
    (userInput _correctAnswer : Str) : Except Unit Bool := do
  let synonyms ← fetchSynonyms resp
  return synonyms.contains (normalize userInput)

/-- One row of the Supabase `answers` table as selected by `checkAnswer`. -/
structure AnswerRow where
  correct_answer : Str
  answer_variations : List Str
deriving DecidableEq

/-- The Step-2 condition of `checkAnswer`:
`correctAnswer.trim().toLowerCase() === userInput.trim().toLowerCase() ||`
`answerVariations.includes(userInput.trim().toLowerCase())`.
Note the variations are compared as stored, without normalization. -/
def exactOrVariantCond (userInput : Str) (row : AnswerRow) : Bool :=
  (normalize row.correct_answer == normalize userInput)
    || row.answer_variations.contains (normalize userInput)

/-- The Step-3 condition of `checkAnswer`:
`this.isFuzzyMatch(userInput, correctAnswer) ||`
`answerVariations.some((variation) => this.isFuzzyMatch(userInput, variation))`. -/
def fuzzyCond (userInput : Str) (row : AnswerRow) : Bool :=
  isFuzzyMatch userInput row.correct_answer
    || row.answer_variations.any (fun variation => isFuzzyMatch userInput variation)

/-- Embeds `AnswerService.checkAnswer`.  The store query's outcome is passed
in as `store` (`Except.error` standing for a Supabase error); the synonym
service outcome as `resp`.  The code reads
`if (error || !data.length) return false;` and then works exclusively with
`data[0]`, returning early at the first accepted tier. -/
def checkAnswer (store : Except Unit (List AnswerRow))
    (resp : Except Unit (List DatamuseEntry)) (userInput : Str) : Except Unit Bool :=
  match store with
  | .error _ => .ok false
  | .ok [] => .ok false
  | .ok (row :: _) =>
    if exactOrVariantCond userInput row then .ok true
    else if fuzzyCond userInput row then .ok true
    else do
      let synonymMatch ← isSynonymMatch resp userInput row.correct_answer
      if synonymMatch then pure true else pure false

/-- The Exact/Variant Matcher as §4.3 of the spec words it (for comparison
against the code's `exactOrVariantCond`): true iff the normalized input equals
`normalize canonicalAnswer` or equals `normalize v` for some stored variant `v`. -/
def matchesExactOrVariantSpec (normalizedInput canonicalAnswer : Str)
    (variants : List Str) : Bool :=
  (normalizedInput == normalize canonicalAnswer)
    || variants.any (fun v => normalizedInput == normalize v)

/-! Infrastructure lemmas about `levRec` and `levenshtein`. -/

theorem levRec_nil_left (fuel : Nat) (ys : Str) : levRec fuel [] ys = ys.length := by
  cases fuel <;> rfl

theorem levRec_cons_nil (fuel : Nat) (x : Char) (xs : Str) :
    levRec fuel (x :: xs) [] = (x :: xs).length := by
  cases fuel <;> rfl

theorem levRec_succ_cons_cons (fuel : Nat) (x y : Char) (xs ys : Str) :
    levRec (fuel + 1) (x :: xs) (y :: ys) =
      if x = y then levRec fuel xs ys
      else 1 + min (levRec fuel xs (y :: ys))
        (min (levRec fuel (x :: xs) ys) (levRec fuel xs ys)) := rfl

theorem levRec_eq_of_le (f1 f2 : Nat) (a b : Str)
    (h1 : a.length + b.length ≤ f1) (h2 : a.length + b.length ≤ f2) :
    levRec f1 a b = levRec f2 a b := by
  induction f1 generalizing f2 a b with
  | zero =>
    match a, b with
    | [], ys => rw [levRec_nil_left, levRec_nil_left]
    | x :: xs, ys => simp at h1
  | succ f1 ih =>
    match a, b with
    | [], ys => rw [levRec_nil_left, levRec_nil_left]
    | x :: xs, [] => rw [levRec_cons_nil, levRec_cons_nil]
    | x :: xs, y :: ys =>
      match f2 with
      | 0 => simp at h2
      | f2 + 1 =>
        rw [levRec_succ_cons_cons, levRec_succ_cons_cons]
        simp only [List.length_cons] at h1 h2
        by_cases hxy : x = y
        · simp only [if_pos hxy]
          exact ih f2 xs ys (by omega) (by omega)
        · simp only [if_neg hxy]
          rw [ih f2 xs (y :: ys) (by simp; omega) (by simp; omega),
            ih f2 (x :: xs) ys (by simp; omega) (by simp; omega),
            ih f2 xs ys (by omega) (by omega)]

theorem levenshtein_nil_left (b : Str) : levenshtein [] b = b.length :=
  levRec_nil_left _ b

theorem levenshtein_cons_nil (x : Char) (xs : Str) :
    levenshtein (x :: xs) [] = (x :: xs).length :=
  levRec_cons_nil _ x xs

theorem levenshtein_nil_right (a : Str) : levenshtein a [] = a.length := by
  cases a with
  | nil => exact levRec_nil_left _ []
  | cons x xs => exact levRec_cons_nil _ x xs

theorem levenshtein_cons_cons (x y : Char) (xs ys : Str) :
    levenshtein (x :: xs) (y :: ys) =
      if x = y then levenshtein xs ys
      else 1 + min (levenshtein xs (y :: ys))
        (min (levenshtein (x :: xs) ys) (levenshtein xs ys)) := by
  have hunf : levenshtein (x :: xs) (y :: ys) =
      (if x = y then levRec (xs.length + 1 + ys.length) xs ys
      else 1 + min (levRec (xs.length + 1 + ys.length) xs (y :: ys))
        (min (levRec (xs.length + 1 + ys.length) (x :: xs) ys)
          (levRec (xs.length + 1 + ys.length) xs ys))) := rfl
  have e1 : levRec (xs.length + 1 + ys.length) xs ys = levenshtein xs ys :=
    levRec_eq_of_le _ _ _ _ (by omega) (le_refl _)
  have e2 : levRec (xs.length + 1 + ys.length) xs (y :: ys) = levenshtein xs (y :: ys) :=
    levRec_eq_of_le _ _ _ _ (by simp only [List.length_cons]; omega) (le_refl _)
  have e3 : levRec (xs.length + 1 + ys.length) (x :: xs) ys = levenshtein (x :: xs) ys :=
    levRec_eq_of_le _ _ _ _ (by simp only [List.length_cons]; omega) (le_refl _)
  rw [hunf, e2, e3, e1]

theorem levenshtein_symm (a b : Str) : levenshtein a b = levenshtein b a := by
  induction a generalizing b with
  | nil =>
    rw [levenshtein_nil_left, levenshtein_nil_right]
  | cons x xs iha =>
    induction b with
    | nil =>
      rw [levenshtein_nil_left, levenshtein_nil_right]
    | cons y ys ihb =>
      rw [levenshtein_cons_cons, levenshtein_cons_cons]
      by_cases hxy : x = y
      · subst hxy
        simp only [if_pos rfl]
        exact iha ys
      · rw [if_neg hxy, if_neg (fun h => hxy h.symm)]
        rw [iha (y :: ys), iha ys, ihb]
        omega

theorem levenshtein_eq_zero_iff (a b : Str) : levenshtein a b = 0 ↔ a = b := by
  induction a generalizing b with
  | nil =>
    rw [levenshtein_nil_left]
    constructor
    · intro h
      exact (List.eq_nil_of_length_eq_zero h).symm
    · intro h
      subst h
      rfl
  | cons x xs iha =>
    cases b with
    | nil =>
      rw [levenshtein_nil_right]
      simp
    | cons y ys =>
      rw [levenshtein_cons_cons]
      by_cases hxy : x = y
      · subst hxy
        rw [if_pos rfl]
        rw [iha ys]
        simp
      · rw [if_neg hxy]
        constructor
        · intro h
          omega
        · intro h
          exact absurd (List.cons.injEq .. ▸ congrArg id h).1 hxy

/-! Infrastructure lemmas about `jsToLowerChar`, `jsTrim` and `normalize`. -/

theorem toNat_jsToLowerChar (c : Char) :
    (jsToLowerChar c).toNat =
      if 65 ≤ c.toNat ∧ c.toNat ≤ 90 then c.toNat + 32 else c.toNat := by
  unfold jsToLowerChar
  by_cases h : 65 ≤ c.toNat ∧ c.toNat ≤ 90
  · rw [if_pos h, if_pos h]
    have hv : Nat.isValidChar (c.toNat + 32) := Or.inl (by omega)
    rw [Char.ofNat, dif_pos hv]
    rfl
  · rw [if_neg h, if_neg h]

theorem isJsWhitespace_jsToLowerChar (c : Char) :
    isJsWhitespace (jsToLowerChar c) = isJsWhitespace c := by
  have ht := toNat_jsToLowerChar c
  by_cases h : 65 ≤ c.toNat ∧ c.toNat ≤ 90
  · rw [if_pos h] at ht
    have l : isJsWhitespace (jsToLowerChar c) = false := by
      simp only [isJsWhitespace, ht, Bool.or_eq_false_iff, decide_eq_false_iff_not]
      omega
    have r : isJsWhitespace c = false := by
      simp only [isJsWhitespace, Bool.or_eq_false_iff, decide_eq_false_iff_not]
      omega
    rw [l, r]
  · rw [if_neg h] at ht
    simp only [isJsWhitespace, ht]

theorem jsToLowerChar_not_upper (c : Char) :
    ¬(65 ≤ (jsToLowerChar c).toNat ∧ (jsToLowerChar c).toNat ≤ 90) := by
  have ht := toNat_jsToLowerChar c
  by_cases h : 65 ≤ c.toNat ∧ c.toNat ≤ 90
  · rw [if_pos h] at ht
    omega
  · rw [if_neg h] at ht
    omega

theorem head?_dropWhile_eq_false {α : Type} (p : α → Bool) (l : List α) (c : α)
    (h : (l.dropWhile p).head? = some c) : p c = false := by
  induction l with
  | nil => simp at h
  | cons x xs ih =>
    rw [List.dropWhile_cons] at h
    by_cases hx : p x
    · rw [if_pos hx] at h
      exact ih h
    · rw [if_neg hx] at h
      simp only [List.head?_cons, Option.some.injEq] at h
      subst h
      simp only [Bool.not_eq_true] at hx
      exact hx

theorem getLast?_dropWhile {α : Type} (p : α → Bool) (l : List α)
    (h : l.dropWhile p ≠ []) : (l.dropWhile p).getLast? = l.getLast? := by
  induction l with
  | nil => simp at h
  | cons x xs ih =>
    rw [List.dropWhile_cons] at h ⊢
    by_cases hx : p x
    · rw [if_pos hx] at h ⊢
      cases xs with
      | nil => simp at h
      | cons b bs =>
        rw [List.getLast?_cons_cons]
        exact ih h
    · rw [if_neg hx]

/-! Claims. -/

/-- C6: for all strings `a` and `b`, `levenshtein a b = levenshtein b a`,
`levenshtein a b = 0` iff `a = b`, and the distance from a string to the
empty string equals that string's length. -/
theorem claimC6_editDistance_algebra (a b : Str) :
    levenshtein a b = levenshtein b a ∧ (levenshtein a b = 0 ↔ a = b) ∧
      levenshtein a [] = a.length :=
  ⟨levenshtein_symm a b, levenshtein_eq_zero_iff a b, levenshtein_nil_right a⟩

/-- C7 counterexample: `normalize` does not collapse runs of internal
whitespace — on a string with two adjacent internal spaces it returns a
different result than on the single-spaced string (the code is
`trim().toLowerCase()` only). -/
theorem claimC7_counterexample :
    normalize ['a', ' ', ' ', 'b'] ≠ normalize ['a', ' ', 'b'] := by
  decide

/-- C7 amended: `normalize` is a total function that strips leading and
trailing whitespace and folds ASCII case to lowercase (no uppercase ASCII
letter survives, and the first and last characters of the result are never
whitespace), but it does not collapse runs of internal whitespace. -/
theorem claimC7_normalize_amended (s : Str) :
    (∀ c ∈ normalize s, ¬(65 ≤ c.toNat ∧ c.toNat ≤ 90)) ∧
    (∀ c, (normalize s).head? = some c → isJsWhitespace c = false) ∧
    (∀ c, (normalize s).getLast? = some c → isJsWhitespace c = false) := by
  refine ⟨?_, ?_, ?_⟩
  · intro c hc
    rw [normalize, jsToLower] at hc
    obtain ⟨d, _, rfl⟩ := List.mem_map.1 hc
    exact jsToLowerChar_not_upper d
  · intro c hc
    rw [normalize, jsToLower, List.head?_map] at hc
    obtain ⟨d, hd, rfl⟩ := Option.map_eq_some'.1 hc
    rw [isJsWhitespace_jsToLowerChar]
    rw [jsTrim, List.head?_reverse] at hd
    have hne : (s.dropWhile isJsWhitespace).reverse.dropWhile isJsWhitespace ≠ [] := by
      intro h0
      rw [h0] at hd
      simp at hd
    rw [getLast?_dropWhile _ _ hne, List.getLast?_reverse] at hd
    exact head?_dropWhile_eq_false _ _ d hd
  · intro c hc
    rw [normalize, jsToLower, List.getLast?_map] at hc
    obtain ⟨d, hd, rfl⟩ := Option.map_eq_some'.1 hc
    rw [isJsWhitespace_jsToLowerChar]
    rw [jsTrim, List.getLast?_reverse] at hd
    exact head?_dropWhile_eq_false _ _ d hd

/-- C7 witness: the amended theorem applied at the concrete string `"A"`,
whose normalization is `"a"` with non-whitespace head. -/
theorem claimC7_witness : isJsWhitespace 'a' = false :=
  (claimC7_normalize_amended ['A']).2.1 'a' rfl

/-- C9: when the store returns more than one answer row, `checkAnswer`
validates only against the first row; the remaining rows never influence
the result. -/
theorem claimC9_only_first_row (row : AnswerRow) (rest rest2 : List AnswerRow)
    (resp : Except Unit (List DatamuseEntry)) (userInput : Str) :
    checkAnswer (.ok (row :: rest)) resp userInput =
      checkAnswer (.ok (row :: rest2)) resp userInput := rfl

/-- C10: when the store query itself reports an error, `checkAnswer` returns
the ordinary rejection `false` instead of propagating the error
(`if (error || !data.length) return false;`). -/
theorem claimC10_store_error_returns_false (e : Unit)
    (resp : Except Unit (List DatamuseEntry)) (userInput : Str) :
    checkAnswer (.error e) resp userInput = .ok false := rfl

/-- C1: `checkAnswer` tries the Exact/Variant condition first, then the fuzzy
condition (canonical answer, then the variants), and only then the synonym
lookup, returning at the first accepting tier.  When an earlier tier accepts,
the result is `.ok true` for every synonym-service outcome `resp` — including
a failing one — so the later tier is never evaluated; when no earlier tier
accepts, the result is exactly the Synonym Matcher's verdict. -/
theorem claimC1_tier_precedence (row : AnswerRow) (rest : List AnswerRow)
    (resp : Except Unit (List DatamuseEntry)) (userInput : Str) :
    (exactOrVariantCond userInput row = true →
      checkAnswer (.ok (row :: rest)) resp userInput = .ok true) ∧
    (exactOrVariantCond userInput row = false → fuzzyCond userInput row = true →
      checkAnswer (.ok (row :: rest)) resp userInput = .ok true) ∧
    (exactOrVariantCond userInput row = false → fuzzyCond userInput row = false →
      checkAnswer (.ok (row :: rest)) resp userInput =
        isSynonymMatch resp userInput row.correct_answer) := by
  refine ⟨fun h1 => ?_, fun h1 h2 => ?_, fun h1 h2 => ?_⟩
  · simp [checkAnswer, h1]
  · simp [checkAnswer, h1, h2]
  · cases resp with
    | error e =>
      simp [checkAnswer, h1, h2, isSynonymMatch, fetchSynonyms, Except.map,
        Bind.bind, Except.bind]
    | ok entries =>
      simp only [checkAnswer, h1, h2, Bool.false_eq_true, if_false, isSynonymMatch,
        fetchSynonyms, Except.map, Bind.bind, Except.bind, pure, Except.pure]
      by_cases hb : (entries.map (fun entry => entry.word)).contains (normalize userInput)
      · rw [if_pos hb, hb]
      · rw [if_neg hb]
        rw [Bool.not_eq_true] at hb
        rw [hb]

/-- C1 witness: input `"rund"` is within fuzzy threshold of `"round"`, and the
result is `.ok true` even though the synonym service fails. -/
theorem claimC1_witness :
    checkAnswer (.ok [⟨['r', 'o', 'u', 'n', 'd'], []⟩]) (.error ())
      ['r', 'u', 'n', 'd'] = .ok true :=
  (claimC1_tier_precedence ⟨['r', 'o', 'u', 'n', 'd'], []⟩ [] (.error ())
    ['r', 'u', 'n', 'd']).2.1 rfl rfl

/-- C2 counterexample: when the store resolves no answer row, `checkAnswer`
returns `.ok false` — the very same ordinary rejection value produced for a
wrong guess against a stored answer — rather than a propagated
NotFound/ConfigurationError condition. -/
theorem claimC2_counterexample :
    checkAnswer (.ok []) (.ok []) ['z', 'z'] = .ok false ∧
    checkAnswer (.ok [⟨['r', 'o', 'u', 'n', 'd'], []⟩]) (.ok []) ['z', 'z'] = .ok false :=
  ⟨rfl, rfl⟩

/-- C2 amended: for every questionId for which the store resolves no answer
row, `checkAnswer` silently returns the ordinary rejection `.ok false`
(`if (error || !data.length) return false;`); no NotFound condition exists. -/
theorem claimC2_missing_answer_amended (resp : Except Unit (List DatamuseEntry))
    (userInput : Str) :
    checkAnswer (.ok []) resp userInput = .ok false := rfl

/-- C3 counterexample: with stored answer `"round"` and input `"zz"` (no
exact or fuzzy match), a failing synonym service makes `checkAnswer` itself
error out, while an empty synonym set yields `.ok false` — the two outcomes
differ, contradicting the claimed graceful degradation. -/
theorem claimC3_counterexample :
    checkAnswer (.ok [⟨['r', 'o', 'u', 'n', 'd'], []⟩]) (.error ()) ['z', 'z'] = .error () ∧
    checkAnswer (.ok [⟨['r', 'o', 'u', 'n', 'd'], []⟩]) (.ok []) ['z', 'z'] = .ok false :=
  ⟨rfl, rfl⟩

/-- C3 amended: `isSynonymMatch` has no failure handling, so whenever neither
the exact/variant nor the fuzzy tier accepts, a synonym-service failure
propagates out of `checkAnswer` as an error instead of degrading to
"no synonym match". -/
theorem claimC3_failure_propagates_amended (row : AnswerRow) (rest : List AnswerRow)
    (e : Unit) (userInput : Str)
    (h1 : exactOrVariantCond userInput row = false)
    (h2 : fuzzyCond userInput row = false) :
    checkAnswer (.ok (row :: rest)) (.error e) userInput = .error e := by
  simp [checkAnswer, h1, h2, isSynonymMatch, fetchSynonyms, Except.map,
    Bind.bind, Except.bind]

/-- C3 witness: the amended theorem applied at stored answer `"round"`,
input `"zz"` and a failing synonym service. -/
theorem claimC3_witness :
    checkAnswer (.ok [⟨['r', 'o', 'u', 'n', 'd'], []⟩]) (.error ()) ['z', 'z'] =
      .error () :=
  claimC3_failure_propagates_amended ⟨['r', 'o', 'u', 'n', 'd'], []⟩ [] () ['z', 'z']
    rfl rfl

/-- C4 counterexample: the whitespace-only input `"  "` normalizes to the
empty string, yet against the stored canonical answer `"ox"` `checkAnswer`
accepts it (`levenshtein("", "ox") = 2 ≤ 2` passes the fuzzy tier) — there is
no empty-input short-circuit. -/
theorem claimC4_counterexample :
    checkAnswer (.ok [⟨['o', 'x'], []⟩]) (.ok []) [' ', ' '] = .ok true := rfl

/-- C4 amended: `checkAnswer` has no guard for empty normalized input; such
input can be accepted by the fuzzy tier whenever the canonical answer or a
variant normalizes to at most 2 characters.  It is rejected with the ordinary
`.ok false` whenever the canonical answer and every variant normalize to more
than 2 characters (the fuzzy threshold) and the synonym service returns no
empty word. -/
theorem claimC4_empty_input_amended (row : AnswerRow) (rest : List AnswerRow)
    (ws : List DatamuseEntry) (userInput : Str)
    (hin : normalize userInput = [])
    (hca : 2 < (normalize row.correct_answer).length)
    (hvar : ∀ v ∈ row.answer_variations, 2 < (normalize v).length)
    (hws : ∀ entry ∈ ws, entry.word ≠ ([] : Str)) :
    checkAnswer (.ok (row :: rest)) (.ok ws) userInput = .ok false := by
  have hex : exactOrVariantCond userInput row = false := by
    rw [exactOrVariantCond, hin]
    apply Bool.or_eq_false_iff.mpr
    constructor
    · rw [beq_eq_false_iff_ne]
      intro h0
      rw [h0] at hca
      simp at hca
    · simp only [List.elem_eq_mem, decide_eq_false_iff_not]
      intro hmem
      have h0 := hvar [] hmem
      simp [normalize, jsTrim, jsToLower] at h0
  have hfz : fuzzyCond userInput row = false := by
    rw [fuzzyCond]
    apply Bool.or_eq_false_iff.mpr
    constructor
    · rw [isFuzzyMatch, hin, decide_eq_false_iff_not, levenshtein_nil_left]
      omega
    · rw [List.any_eq_false]
      intro v hv
      rw [isFuzzyMatch, hin]
      simp only [decide_eq_true_eq, levenshtein_nil_left]
      have h0 := hvar v hv
      omega
  have hcont : (ws.map (fun entry => entry.word)).contains ([] : Str) = false := by
    simp only [List.elem_eq_mem, decide_eq_false_iff_not]
    intro hmem
    obtain ⟨entry, he, hw⟩ := List.mem_map.1 hmem
    exact hws entry he hw
  simp only [checkAnswer, hex, hfz, Bool.false_eq_true, if_false, isSynonymMatch,
    fetchSynonyms, Except.map, Bind.bind, Except.bind, pure, Except.pure, hin, hcont]

/-- C4 witness: the amended theorem at stored answer `"round"` with variant
`"circular"`, whitespace-only input and an empty synonym set. -/
theorem claimC4_witness :
    checkAnswer (.ok [⟨['r', 'o', 'u', 'n', 'd'], [['c', 'i', 'r', 'c', 'u', 'l', 'a', 'r']]⟩])
      (.ok []) [' ', ' '] = .ok false :=
  claimC4_empty_input_amended
    ⟨['r', 'o', 'u', 'n', 'd'], [['c', 'i', 'r', 'c', 'u', 'l', 'a', 'r']]⟩ [] []
    [' ', ' '] rfl (by decide) (by decide) (by decide)

/-- C5 counterexample: with canonical answer `"round"` and the variant stored
non-normalized as `"Circular"`, the input `"Circular"` (normalized:
`"circular"`) is accepted by the spec's Exact/Variant matcher but rejected by
the code's Step-2 condition: the code compares the stored variant verbatim
(`answerVariations.includes(...)`) without normalizing it. -/
theorem claimC5_counterexample :
    exactOrVariantCond ['C', 'i', 'r', 'c', 'u', 'l', 'a', 'r']
      ⟨['r', 'o', 'u', 'n', 'd'], [['C', 'i', 'r', 'c', 'u', 'l', 'a', 'r']]⟩ = false ∧
    matchesExactOrVariantSpec (normalize ['C', 'i', 'r', 'c', 'u', 'l', 'a', 'r'])
      ['r', 'o', 'u', 'n', 'd'] [['C', 'i', 'r', 'c', 'u', 'l', 'a', 'r']] = true :=
  ⟨rfl, rfl⟩

/-- C5 amended: the code's Exact/Variant condition returns true iff the
normalized input equals the normalized canonical answer or literally equals
one of the stored variant strings (variants are compared as stored; a variant
kept in non-normalized form only matches verbatim). -/
theorem claimC5_exact_variant_amended (userInput : Str) (row : AnswerRow) :
    exactOrVariantCond userInput row = true ↔
      (normalize userInput = normalize row.correct_answer ∨
        normalize userInput ∈ row.answer_variations) := by
  simp only [exactOrVariantCond, Bool.or_eq_true, beq_iff_eq, List.elem_eq_mem,
    decide_eq_true_eq]
  constructor
  · rintro (h | h)
    · exact Or.inl h.symm
    · exact Or.inr h
  · rintro (h | h)
    · exact Or.inl h.symm
    · exact Or.inr h

/-- C8 counterexample: the synonym service returns the word `"Happy"`
(non-normalized), whose normalization equals the normalized input `"happy"`,
yet `isSynonymMatch` reports no match: the returned entries are stored as-is
(`data.map((entry) => entry.word)`), not normalized. -/
theorem claimC8_counterexample :
    normalize ['H', 'a', 'p', 'p', 'y'] = ['h', 'a', 'p', 'p', 'y'] ∧
    isSynonymMatch (.ok [⟨['H', 'a', 'p', 'p', 'y']⟩]) ['h', 'a', 'p', 'p', 'y']
      ['j', 'o', 'y'] = .ok false :=
  ⟨rfl, rfl⟩

/-- C8 amended: on a successful lookup the Synonym Matcher stores the
returned words as-is and tests the normalized input for verbatim membership:
it matches iff the normalized input is literally one of the returned words. -/
theorem claimC8_synonym_membership_amended (entries : List DatamuseEntry)
    (userInput correctAnswer : Str) :
    isSynonymMatch (.ok entries) userInput correctAnswer = .ok true ↔
      normalize userInput ∈ entries.map (fun entry => entry.word) := by
  simp only [isSynonymMatch, fetchSynonyms, Except.map, Bind.bind, Except.bind,
    pure, Except.pure, Except.ok.injEq, List.elem_eq_mem, decide_eq_true_eq]

end PuzzleBreak
